import Mathlib

/-!
The reconcile run of gh-clean-forks, `cmd/root.go`.

A shallow embedding of `rootCmd.Run`, `createClients`, `getForks`,
`getReposWithOpenPullRequests`, `deleteFork` and `getRunningUser`.

The program talks to three external capabilities (GraphQL queries, REST `Get`
and REST `Delete`).  Each call is recorded as an `Event`, in program order,
next to every line the program prints; the answers of the outside world are
inputs of the model:

* the answer to the REST `Delete` is a function of the paths deleted so far
  in the run and of the path asked for (`DeleteCap`);
* the answers to a paginated query are a script, consumed one response per
  `client.Query` call; a loop that asks for a response the script does not
  hold ends in `awaiting`;
* `log.Fatal` prints the error and exits the process: it ends the trace with
  the outcome `fatal`.
-/

namespace CleanForks

/-! ## Observable behaviour -/

/-- One observable action of the program. -/
inductive Event where
  /-- Line printed through color.Yellow. -/
  | yellow (msg : String)
  /-- Line printed through color.Red. -/
  | red (msg : String)
  /-- Line printed through color.Green. -/
  | green (msg : String)
  /-- Line printed through fmt.Println. -/
  | println (msg : String)
  /-- Call client.Get(path, &response) on the REST client. -/
  | restGet (path : String)
  /-- Call client.Delete(path, nil) on the REST client. -/
  | restDelete (path : String)
  /-- Call client.Query(name, &q, variables) with the two variables of the query. -/
  | query (name : String) (login : String) (endCursor : Option String)
  deriving DecidableEq, Repr

/-- How a run ends. -/
inductive Outcome where
  /-- The function ran to its end. -/
  | returned
  /-- Reached log.Fatal(err): the error is printed and the process exits. -/
  | fatal (err : String)
  /-- A query was issued whose response the script does not hold. -/
  | awaiting
  deriving DecidableEq, Repr

/-- The events of a run, in order, and how it ended. -/
structure Trace where
  events : List Event
  outcome : Outcome
  deriving DecidableEq, Repr

/-- Events that happened before the trace `t`. -/
def Trace.after (evs : List Event) (t : Trace) : Trace :=
  ⟨evs ++ t.events, t.outcome⟩

/-- The paths of the REST delete calls among the events, in order. -/
def deletePaths (evs : List Event) : List String :=
  evs.filterMap fun e => match e with
    | .restDelete p => some p
    | _ => none

/-- The events other than REST delete calls: what the user sees of the loop. -/
def reports (evs : List Event) : List Event :=
  evs.filter fun e => match e with
    | .restDelete _ => false
    | _ => true

/-! ## The deletion capability and `deleteFork` -/

/-- The answer of `client.Delete(path, nil)`: given the paths already deleted in this
run (in call order) and the path asked for, `none` is success (a nil error) and
`some err` is the error returned. -/
abbrev DeleteCap := List String → String → Option String

/-- A deletion capability that succeeds on every call. -/
def DeleteCap.succeeds : DeleteCap := fun _ _ => none

/-- Lines 192-199, `deleteFork(name, dryRun, client)`.  Returns the events of the call
and `some err` when `log.Fatal(err)` was reached. -/
def deleteFork (name : String) (dryRun : Bool) (client : DeleteCap) (hist : List String) :
    List Event × Option String :=
  if !dryRun then
    match client hist ("repos/" ++ name) with
    | some error => ([Event.restDelete ("repos/" ++ name)], some error)
    | none => ([Event.restDelete ("repos/" ++ name)], none)
  else
    ([], none)

/-! ## Classification (lines 46-65) -/

/-- Lines 47-50, the local struct `Fork`. -/
structure Fork where
  name : String
  hasOpenPRs : Bool
  deriving DecidableEq, Repr

/-- Lines 57-62: the scan of `reposWithOpenPullRequests` for one fork, with the `break`
on the first equal entry; the last argument is the variable `hasOpenPRs`. -/
def scanOpenPRs (fork : String) : List String → Bool → Bool
  | [], hasOpenPRs => hasOpenPRs
  | repo :: rest, hasOpenPRs =>
    if fork = repo then true else scanOpenPRs fork rest hasOpenPRs

/-- Lines 54-65: the loop over `allForks`; the last argument is the slice `forks`. -/
def classifyLoop (reposWithOpenPullRequests : List String) : List String → List Fork → List Fork
  | [], forks => forks
  | fork :: rest, forks =>
    let hasOpenPRs := scanOpenPRs fork reposWithOpenPullRequests false
    classifyLoop reposWithOpenPullRequests rest (forks ++ [⟨fork, hasOpenPRs⟩])

/-- Lines 52-65: `forks` starts empty and is filled by the loop. -/
def classify (allForks reposWithOpenPullRequests : List String) : List Fork :=
  classifyLoop reposWithOpenPullRequests allForks []

/-! ## The delete loop (lines 67-74) -/

/-- Lines 67-74: the loop over `forks`.  `hist` holds the paths deleted so far. -/
def deleteLoop (force runningDry : Bool) (restClient : DeleteCap) :
    List Fork → List String → Trace
  | [], _ => ⟨[], .returned⟩
  | fork :: rest, hist =>
    if force || !fork.hasOpenPRs then
      match deleteFork fork.name runningDry restClient hist with
      | (evs, some err) => ⟨evs, .fatal err⟩
      | (evs, none) =>
        (deleteLoop force runningDry restClient rest (hist ++ deletePaths evs)).after
          (evs ++ [Event.green ("[DELETED] " ++ fork.name)])
    else
      (deleteLoop force runningDry restClient rest hist).after
        [Event.yellow ("[SKIPPED] " ++ fork.name ++ " (has open pull requests)")]

/-- Lines 46-74: classification followed by the delete loop. -/
def reconcile (force runningDry : Bool) (restClient : DeleteCap)
    (allForks reposWithOpenPullRequests : List String) : Trace :=
  deleteLoop force runningDry restClient (classify allForks reposWithOpenPullRequests) []

/-! ## Paginated listings (lines 105-190) -/

/-- The `PageInfo` struct of both queries. -/
structure PageInfo where
  HasNextPage : Bool
  EndCursor : String
  deriving DecidableEq, Repr

/-- A node of `forksQuery.User.Repositories.Nodes`, also `HeadRef.Repository`. -/
structure Repository where
  NameWithOwner : String
  deriving DecidableEq, Repr

/-- The `HeadRef` struct of a pull request node. -/
structure HeadRef where
  Name : String
  Repository : Repository
  deriving DecidableEq, Repr

/-- A node of `pullRequestsQuery.User.PullRequests.Nodes`. -/
structure PullRequest where
  HeadRef : HeadRef
  deriving DecidableEq, Repr

/-- What a successful query leaves in the query struct: the nodes and the page info. -/
structure Connection (α : Type) where
  Nodes : List α
  PageInfo : PageInfo
  deriving DecidableEq, Repr

/-- The answer to one `client.Query` call. -/
inductive Response (α : Type) where
  /-- A nil error; the query struct holds this page. -/
  | page (c : Connection α)
  /-- A non-nil error. -/
  | failed (err : String)
  deriving DecidableEq, Repr

/-- Result of a listing function. -/
inductive Fetched where
  /-- The function returned this slice. -/
  | ok (names : List String)
  /-- Reached log.Fatal(err). -/
  | fatal (err : String)
  /-- A query was issued whose response the script does not hold. -/
  | awaiting
  deriving DecidableEq, Repr

/-- A listing run: its events, its result and the responses it did not consume. -/
structure Listing (α : Type) where
  events : List Event
  result : Fetched
  rest : List (Response α)
  deriving DecidableEq, Repr

/-- Lines 129-142, the `for` loop of `getForks`; `endCursor` is `variables["endCursor"]`
(`none` is the nil pointer) and `forks` the slice built so far. -/
def getForksLoop (username : String) :
    List (Response Repository) → Option String → List String → Listing Repository
  | [], endCursor, _ => ⟨[Event.query "Forks" username endCursor], .awaiting, []⟩
  | .failed error :: rest, endCursor, _ =>
    ⟨[Event.query "Forks" username endCursor], .fatal error, rest⟩
  | .page forksQuery :: rest, endCursor, forks =>
    let forks := forksQuery.Nodes.foldl (fun forks fork => forks ++ [fork.NameWithOwner]) forks
    if !forksQuery.PageInfo.HasNextPage then
      ⟨[Event.query "Forks" username endCursor], .ok forks, rest⟩
    else
      let l := getForksLoop username rest (some forksQuery.PageInfo.EndCursor) forks
      ⟨Event.query "Forks" username endCursor :: l.events, l.result, l.rest⟩

/-- Lines 105-145, `getForks(username, client)`. -/
def getForks (username : String) (client : List (Response Repository)) : Listing Repository :=
  getForksLoop username client none []

/-- Lines 174-187, the `for` loop of `getReposWithOpenPullRequests`. -/
def getReposWithOpenPullRequestsLoop (username : String) :
    List (Response PullRequest) → Option String → List String → Listing PullRequest
  | [], endCursor, _ => ⟨[Event.query "PullRequests" username endCursor], .awaiting, []⟩
  | .failed error :: rest, endCursor, _ =>
    ⟨[Event.query "PullRequests" username endCursor], .fatal error, rest⟩
  | .page pullRequestsQuery :: rest, endCursor, repositories =>
    let repositories := pullRequestsQuery.Nodes.foldl
      (fun repositories pullRequests =>
        repositories ++ [pullRequests.HeadRef.Repository.NameWithOwner]) repositories
    if !pullRequestsQuery.PageInfo.HasNextPage then
      ⟨[Event.query "PullRequests" username endCursor], .ok repositories, rest⟩
    else
      let l := getReposWithOpenPullRequestsLoop username rest
        (some pullRequestsQuery.PageInfo.EndCursor) repositories
      ⟨Event.query "PullRequests" username endCursor :: l.events, l.result, l.rest⟩

/-- Lines 147-190, `getReposWithOpenPullRequests(username, client)`. -/
def getReposWithOpenPullRequests (username : String) (client : List (Response PullRequest)) :
    Listing PullRequest :=
  getReposWithOpenPullRequestsLoop username client none []

/-! ## Identity lookup, clients and `Run` -/

/-- Line 202, the struct `struct{ Login string }` handed to `client.Get`. -/
structure UserResponse where
  Login : String
  deriving DecidableEq, Repr

/-- The answer of `client.Get("user", &response)`: the error it returns (`none` is nil)
and what the call does to the response it is handed.  The two are independent: a call
may return an error and still have written the response. -/
structure GetOutcome where
  error : Option String
  store : UserResponse → UserResponse

/-- Lines 201-208, `getRunningUser(client)`: the response starts with an empty `Login`,
`client.Get` acts on it, a non-nil error is printed, and the `Login` of the response is
returned either way. -/
def getRunningUser (client : GetOutcome) : List Event × String :=
  let response : UserResponse := ⟨""⟩
  let response := client.store response
  match client.error with
  | some error => ([Event.restGet "user", Event.println error], response.Login)
  | none => ([Event.restGet "user"], response.Login)

/-- The command line flags read by `Run` (declared in `init`, lines 210-215). -/
structure Flags where
  username : String
  token : String
  dryRun : Bool
  force : Bool
  deriving DecidableEq, Repr

/-- The outside world of one run. -/
structure World where
  /-- Error of api.NewGraphQLClient, if any. -/
  newGraphQLClient : Option String
  /-- Error of api.NewRESTClient, if any. -/
  newRESTClient : Option String
  /-- Answer to the identity lookup. -/
  getUser : GetOutcome
  /-- Answers to the Forks queries, in order. -/
  forksPages : List (Response Repository)
  /-- Answers to the PullRequests queries, in order. -/
  pullRequestsPages : List (Response PullRequest)
  /-- Answers to the delete calls. -/
  delete : DeleteCap

/-- Lines 85-103, `createClients(token)`: the first error met, if any. -/
def createClients (w : World) : Option String :=
  match w.newGraphQLClient with
  | some error => some error
  | none =>
    match w.newRESTClient with
    | some error => some error
    | none => none

/-- Lines 19-27: the two banners. -/
def banners (flags : Flags) : List Event :=
  (if flags.dryRun then
    [Event.yellow "Running in dry-run mode. No repositories will be deleted."] else []) ++
  (if flags.force then
    [Event.red "Force mode enabled. Forks with open pull requests will be deleted."] else [])

/-- Lines 36-39: the username is the flag, or the running user when the flag is empty. -/
def resolveUsername (flags : Flags) (w : World) : List Event × String :=
  if flags.username = "" then getRunningUser w.getUser else ([], flags.username)

/-- Lines 40-74: the run from the moment the username is known. -/
def runAs (flags : Flags) (w : World) (username : String) : Trace :=
  let start := [Event.println ("Running as: " ++ username)]
  let allForks := getForks username w.forksPages
  match allForks.result with
  | .fatal error => ⟨start ++ allForks.events, .fatal error⟩
  | .awaiting => ⟨start ++ allForks.events, .awaiting⟩
  | .ok forkNames =>
    let reposWithOpenPullRequests := getReposWithOpenPullRequests username w.pullRequestsPages
    match reposWithOpenPullRequests.result with
    | .fatal error =>
      ⟨start ++ allForks.events ++ reposWithOpenPullRequests.events, .fatal error⟩
    | .awaiting =>
      ⟨start ++ allForks.events ++ reposWithOpenPullRequests.events, .awaiting⟩
    | .ok repoNames =>
      (reconcile flags.force flags.dryRun w.delete forkNames repoNames).after
        (start ++ allForks.events ++ reposWithOpenPullRequests.events)

/-- Lines 18-75, `rootCmd.Run`. -/
def Run (flags : Flags) (w : World) : Trace :=
  match createClients w with
  | some error => ⟨banners flags, .fatal error⟩
  | none =>
    let (lookup, username) := resolveUsername flags w
    (runAs flags w username).after (banners flags ++ lookup)

/-! ## The scenario of the specification -/

/-- The fork list of the scenario. -/
def scenarioF : List String := ["alice/repoA", "alice/repoB", "alice/repoC"]

/-- The open pull request list of the scenario. -/
def scenarioP : List String := ["alice/repoB"]

/-! ## Vocabulary of the statements -/

/-- The path of the REST call that deletes the repository `name`. -/
def repoPath (name : String) : String := "repos/" ++ name

/-- The decide step on a fork name: DELETE when force is set or the name is not in `P`. -/
def isDelete (force : Bool) (P : List String) (f : String) : Bool :=
  force || !decide (f ∈ P)

/-- The line logged for a fork record that the loop got past. -/
def reportLine (force : Bool) (fork : Fork) : Event :=
  if force || !fork.hasOpenPRs then Event.green ("[DELETED] " ++ fork.name)
  else Event.yellow ("[SKIPPED] " ++ fork.name ++ " (has open pull requests)")

/-- The record that exact membership in `P` gives a fork name. -/
def record (P : List String) (f : String) : Fork := ⟨f, decide (f ∈ P)⟩

/-- An event that a run working for the login `u` may produce once the username is
resolved: any event but an identity lookup or a query for another login. -/
def Event.afterLookup (u : String) : Event → Bool
  | .query _ login _ => decide (login = u)
  | .restGet _ => false
  | _ => true

/-- A world in which the identity lookup fails and leaves the response untouched, and
each listing has one empty page. -/
def lookupFailsWorld : World where
  newGraphQLClient := none
  newRESTClient := none
  getUser := ⟨some "HTTP 401", fun response => response⟩
  forksPages := [.page ⟨[], ⟨false, ""⟩⟩]
  pullRequestsPages := [.page ⟨[], ⟨false, ""⟩⟩]
  delete := DeleteCap.succeeds

/-- A world in which the identity lookup returns an error after it has written a login
into the response, and each listing has one empty page. -/
def lookupPartialWorld : World where
  newGraphQLClient := none
  newRESTClient := none
  getUser := ⟨some "json: cannot unmarshal", fun _ => ⟨"alice"⟩⟩
  forksPages := [.page ⟨[], ⟨false, ""⟩⟩]
  pullRequestsPages := [.page ⟨[], ⟨false, ""⟩⟩]
  delete := DeleteCap.succeeds

/-- The banner that announces dry-run mode (line 21). -/
def dryRunBanner : Event :=
  Event.yellow "Running in dry-run mode. No repositories will be deleted."

/-- A deletion capability that refuses one path, and accepts every other. -/
def DeleteCap.failsOn (bad err : String) : DeleteCap :=
  fun _ path => if path = bad then some err else none

/-- The decide step on a fork record. -/
def Fork.toDelete (force : Bool) (fork : Fork) : Bool := force || !fork.hasOpenPRs

/-- The events of the delete loop over `forks` when it runs for real and no call fails. -/
def okEvents (force : Bool) : List Fork → List Event
  | [] => []
  | fork :: rest =>
    (if fork.toDelete force then
      [Event.restDelete (repoPath fork.name), Event.green ("[DELETED] " ++ fork.name)]
    else [Event.yellow ("[SKIPPED] " ++ fork.name ++ " (has open pull requests)")])
    ++ okEvents force rest

/-! ## Lemmas on the classification -/

theorem scanOpenPRs_eq (fork : String) (P : List String) (b : Bool) :
    scanOpenPRs fork P b = (decide (fork ∈ P) || b) := by
  induction P with
  | nil => simp [scanOpenPRs]
  | cons repo rest ih =>
    by_cases h : fork = repo
    · simp [scanOpenPRs, h]
    · simp [scanOpenPRs, h, ih]

theorem classifyLoop_eq (P F : List String) (acc : List Fork) :
    classifyLoop P F acc = acc ++ F.map (record P) := by
  induction F generalizing acc with
  | nil => simp [classifyLoop]
  | cons f rest ih => simp [classifyLoop, ih, scanOpenPRs_eq, record]

theorem classify_eq (F P : List String) : classify F P = F.map (record P) := by
  simp [classify, classifyLoop_eq]

/-! ## Lemmas on events and on the delete loop -/

@[simp] theorem after_events (evs : List Event) (t : Trace) :
    (t.after evs).events = evs ++ t.events := rfl

@[simp] theorem after_outcome (evs : List Event) (t : Trace) :
    (t.after evs).outcome = t.outcome := rfl

@[simp] theorem deletePaths_nil : deletePaths [] = [] := rfl

@[simp] theorem deletePaths_append (a b : List Event) :
    deletePaths (a ++ b) = deletePaths a ++ deletePaths b := by
  simp [deletePaths, List.filterMap_append]

@[simp] theorem deletePaths_restDelete (p : String) (es : List Event) :
    deletePaths (Event.restDelete p :: es) = p :: deletePaths es := by
  simp [deletePaths]

@[simp] theorem deletePaths_green (m : String) (es : List Event) :
    deletePaths (Event.green m :: es) = deletePaths es := by
  simp [deletePaths]

@[simp] theorem deletePaths_yellow (m : String) (es : List Event) :
    deletePaths (Event.yellow m :: es) = deletePaths es := by
  simp [deletePaths]

@[simp] theorem reports_nil : reports [] = [] := rfl

@[simp] theorem reports_append (a b : List Event) :
    reports (a ++ b) = reports a ++ reports b := by
  simp [reports]

@[simp] theorem reports_restDelete (p : String) (es : List Event) :
    reports (Event.restDelete p :: es) = reports es := by
  simp [reports]

@[simp] theorem reports_green (m : String) (es : List Event) :
    reports (Event.green m :: es) = Event.green m :: reports es := by
  simp [reports]

@[simp] theorem reports_yellow (m : String) (es : List Event) :
    reports (Event.yellow m :: es) = Event.yellow m :: reports es := by
  simp [reports]

theorem repoPath_injective : Function.Injective repoPath := by
  intro a b h
  have h2 := congrArg String.data h
  simp only [repoPath, String.data_append, List.append_cancel_left_eq] at h2
  exact String.ext h2

theorem toDelete_record (force : Bool) (P : List String) (f : String) :
    (record P f).toDelete force = isDelete force P f := rfl

/-- In dry-run mode the loop makes no call and logs one line per record. -/
theorem deleteLoop_dry (force : Bool) (restClient : DeleteCap) (forks : List Fork)
    (hist : List String) :
    deleteLoop force true restClient forks hist = ⟨forks.map (reportLine force), .returned⟩ := by
  induction forks generalizing hist with
  | nil => rfl
  | cons fork rest ih =>
    by_cases h : (force || !fork.hasOpenPRs) = true
    · simp [deleteLoop, deleteFork, h, ih, reportLine, Trace.after]
    · simp [deleteLoop, h, ih, reportLine, Trace.after]

/-- When no call fails the loop runs to its end with the events `okEvents`. -/
theorem deleteLoop_ok (force : Bool) (restClient : DeleteCap)
    (hok : ∀ hist path, restClient hist path = none) (forks : List Fork) (hist : List String) :
    deleteLoop force false restClient forks hist = ⟨okEvents force forks, .returned⟩ := by
  induction forks generalizing hist with
  | nil => rfl
  | cons fork rest ih =>
    by_cases h : (force || !fork.hasOpenPRs) = true
    · simp [deleteLoop, deleteFork, h, ih, hok, okEvents, Fork.toDelete, Trace.after, repoPath]
    · simp [deleteLoop, h, ih, okEvents, Fork.toDelete, Trace.after]

theorem deletePaths_okEvents (force : Bool) (forks : List Fork) :
    deletePaths (okEvents force forks)
      = ((forks.filter (Fork.toDelete force)).map fun r => repoPath r.name) := by
  induction forks with
  | nil => rfl
  | cons fork rest ih =>
    by_cases h : fork.toDelete force = true
    · simp [okEvents, h, ih]
    · simp [okEvents, h, ih]

theorem reports_okEvents (force : Bool) (forks : List Fork) :
    reports (okEvents force forks) = forks.map (reportLine force) := by
  induction forks with
  | nil => rfl
  | cons fork rest ih =>
    by_cases h : (force || !fork.hasOpenPRs) = true
    · simp [okEvents, Fork.toDelete, reportLine, h, ih]
    · simp [okEvents, Fork.toDelete, reportLine, h, ih]

theorem deletePaths_map_reportLine (force : Bool) (forks : List Fork) :
    deletePaths (forks.map (reportLine force)) = [] := by
  induction forks with
  | nil => rfl
  | cons fork rest ih =>
    by_cases h : (force || !fork.hasOpenPRs) = true
    · simp [reportLine, h, ih]
    · simp [reportLine, h, ih]

/-- Every run opens with the banners. -/
theorem Run_events_start (flags : Flags) (w : World) :
    ∃ tail, (Run flags w).events = banners flags ++ tail := by
  unfold Run
  split
  · exact ⟨[], by simp⟩
  · simp only [after_events, List.append_assoc]
    exact ⟨_, rfl⟩

theorem filter_toDelete_classify (force : Bool) (F P : List String) :
    (((F.map (record P)).filter (Fork.toDelete force)).map fun r => repoPath r.name)
      = (F.filter (isDelete force P)).map repoPath := by
  induction F with
  | nil => rfl
  | cons f rest ih =>
    by_cases h : isDelete force P f = true
    · have hn : (record P f).name = f := rfl
      simp only [List.map_cons, List.filter_cons, toDelete_record, h, if_true, ih, hn]
    · simp [List.filter_cons, toDelete_record, h, ih]

/-- Whatever the capability answers, the calls of the loop are a sublist of the paths
of the records, in order. -/
theorem deletePaths_deleteLoop_sublist (force dryRun : Bool) (restClient : DeleteCap)
    (forks : List Fork) (hist : List String) :
    List.Sublist (deletePaths (deleteLoop force dryRun restClient forks hist).events)
      (forks.map fun r => repoPath r.name) := by
  induction forks generalizing hist with
  | nil => simp [deleteLoop]
  | cons fork rest ih =>
    by_cases h : (force || !fork.hasOpenPRs) = true
    · cases dryRun with
      | true =>
        simp only [deleteLoop, deleteFork, h, if_true, Bool.not_true, Bool.false_eq_true,
          if_false, after_events, deletePaths_append, deletePaths_nil, List.nil_append,
          deletePaths_green, List.map_cons, List.append_nil]
        exact (ih _).trans (List.sublist_cons_self _ _)
      | false =>
        cases hc : restClient hist ("repos/" ++ fork.name) with
        | none =>
          simp only [deleteLoop, deleteFork, h, hc, if_true, Bool.not_false, after_events,
            deletePaths_append, deletePaths_restDelete, deletePaths_nil, deletePaths_green,
            List.map_cons, List.cons_append, List.nil_append, repoPath]
          exact (ih _).cons₂ _
        | some err =>
          simp only [deleteLoop, deleteFork, h, hc, if_true, Bool.not_false,
            deletePaths_restDelete, deletePaths_nil, List.map_cons, repoPath]
          exact (List.nil_sublist _).cons₂ _
    · simp only [deleteLoop, h, if_false, Bool.false_eq_true, after_events, deletePaths_append,
        deletePaths_yellow, deletePaths_nil, List.nil_append, List.map_cons, List.cons_append]
      exact (ih _).trans (List.sublist_cons_self _ _)

theorem after_nil (t : Trace) : t.after [] = t := by
  cases t
  rfl

theorem after_after (a b : List Event) (t : Trace) :
    (t.after a).after b = t.after (b ++ a) := by
  simp [Trace.after, List.append_assoc]

/-- While the calls succeed, the loop goes through the records as in a run without
failure, and goes on with the rest of the records. -/
theorem deleteLoop_append_ok (force : Bool) (restClient : DeleteCap) (pre rest : List Fork)
    (hist : List String)
    (hpre : ∀ a p b,
      ((pre.filter (Fork.toDelete force)).map fun r => repoPath r.name) = a ++ p :: b →
      restClient (hist ++ a) p = none) :
    deleteLoop force false restClient (pre ++ rest) hist
      = (deleteLoop force false restClient rest
          (hist ++ ((pre.filter (Fork.toDelete force)).map fun r => repoPath r.name))).after
        (okEvents force pre) := by
  induction pre generalizing hist with
  | nil => simp [okEvents, after_nil]
  | cons fork pre ih =>
    by_cases h : fork.toDelete force = true
    · have h0 : restClient hist ("repos/" ++ fork.name) = none := by
        have h1 := hpre [] (repoPath fork.name)
          ((pre.filter (Fork.toDelete force)).map fun r => repoPath r.name) (by simp [h])
        simpa using h1
      have ih2 := ih (hist ++ [repoPath fork.name]) (by
        intro a p b hab
        have h1 := hpre (repoPath fork.name :: a) p b (by simp [h, hab])
        simpa using h1)
      have h2 : (force || !fork.hasOpenPRs) = true := h
      rw [List.cons_append, deleteLoop]
      simp only [h2, if_true, deleteFork, Bool.not_false, h0,
        deletePaths_restDelete, deletePaths_nil]
      rw [show "repos/" ++ fork.name = repoPath fork.name from rfl, ih2, after_after]
      simp [okEvents, h, List.filter_cons]
    · have h2 : ¬ (force || !fork.hasOpenPRs) = true := h
      have ih2 := ih hist (by
        intro a p b hab
        exact hpre a p b (by simp [h, hab]))
      rw [List.cons_append, deleteLoop]
      simp only [h2, if_false]
      rw [ih2, after_after]
      simp [okEvents, h, List.filter_cons]

/-- A failing call ends the loop at once. -/
theorem deleteLoop_fail_head (force : Bool) (restClient : DeleteCap) (fork : Fork)
    (post : List Fork) (hist : List String) (err : String)
    (h : fork.toDelete force = true)
    (hfail : restClient hist (repoPath fork.name) = some err) :
    deleteLoop force false restClient (fork :: post) hist
      = ⟨[Event.restDelete (repoPath fork.name)], .fatal err⟩ := by
  have h2 : (force || !fork.hasOpenPRs) = true := h
  have h3 : restClient hist ("repos/" ++ fork.name) = some err := hfail
  simp only [deleteLoop, h2, if_true, deleteFork, Bool.not_false, h3]
  rfl

/-- The element of index k of a filtered list splits the list around it. -/
theorem filter_split_at {α : Type} (p : α → Bool) (F : List α) (k : Nat) (x : α)
    (hx : (F.filter p)[k]? = some x) :
    ∃ pre post, F = pre ++ x :: post ∧ p x = true ∧ pre.filter p = (F.filter p).take k := by
  induction F generalizing k with
  | nil => simp at hx
  | cons f rest ih =>
    by_cases hp : p f = true
    · rw [List.filter_cons_of_pos hp] at hx ⊢
      cases k with
      | zero =>
        simp only [List.getElem?_cons_zero, Option.some.injEq] at hx
        subst hx
        exact ⟨[], rest, rfl, hp, by simp⟩
      | succ k =>
        simp only [List.getElem?_cons_succ] at hx
        obtain ⟨pre, post, hF, hpx, hpre⟩ := ih k hx
        refine ⟨f :: pre, post, by rw [hF]; rfl, hpx, ?_⟩
        simp [List.filter_cons, hp, hpre]
    · rw [List.filter_cons_of_neg hp] at hx ⊢
      obtain ⟨pre, post, hF, hpx, hpre⟩ := ih k hx
      refine ⟨f :: pre, post, by rw [hF]; rfl, hpx, ?_⟩
      simp [List.filter_cons, hp, hpre]

/-- A split of the image of the first k elements names an index below k. -/
theorem split_take_map {α β : Type} (g : α → β) (D : List α) (k : Nat) (a : List β) (p : β)
    (b : List β) (h : (D.take k).map g = a ++ p :: b) :
    ∃ i f, i < k ∧ D[i]? = some f ∧ g f = p ∧ (D.take i).map g = a := by
  induction a generalizing D k with
  | nil =>
    cases D with
    | nil => simp at h
    | cons d D =>
      cases k with
      | zero => simp at h
      | succ k =>
        simp only [List.take_succ_cons, List.map_cons, List.nil_append, List.cons.injEq] at h
        exact ⟨0, d, Nat.succ_pos k, by simp, h.1, rfl⟩
  | cons a0 a ih =>
    cases D with
    | nil => simp at h
    | cons d D =>
      cases k with
      | zero => simp at h
      | succ k =>
        simp only [List.take_succ_cons, List.map_cons, List.cons_append, List.cons.injEq] at h
        obtain ⟨i, f, hi, hf, hgf, hta⟩ := ih D k h.2
        exact ⟨i + 1, f, Nat.succ_lt_succ hi, by simpa using hf, hgf, by simp [h.1, hta]⟩

/-- The run up to the first failing call: the records before the failing one are
handled as in a run without failure, then the failing call ends the run. -/
theorem reconcile_fail_at (force : Bool) (restClient : DeleteCap) (pre post P : List String)
    (x err : String) (hx : isDelete force P x = true)
    (hpre : ∀ a p b, (pre.filter (isDelete force P)).map repoPath = a ++ p :: b →
      restClient a p = none)
    (hfail : restClient ((pre.filter (isDelete force P)).map repoPath) (repoPath x) = some err) :
    reconcile force false restClient (pre ++ x :: post) P
      = ⟨okEvents force (pre.map (record P)) ++ [Event.restDelete (repoPath x)], .fatal err⟩ := by
  have hc : classify (pre ++ x :: post) P
      = pre.map (record P) ++ record P x :: post.map (record P) := by
    rw [classify_eq, List.map_append, List.map_cons]
  rw [reconcile, hc, deleteLoop_append_ok]
  · rw [filter_toDelete_classify, List.nil_append,
      deleteLoop_fail_head force restClient (record P x) _ _ err hx hfail]
    rfl
  · intro a p b hab
    rw [filter_toDelete_classify] at hab
    rw [List.nil_append]
    exact hpre a p b hab

/-! ## Lemmas on the listings -/

theorem foldl_append_singleton {α : Type} (g : α → String) (nodes : List α)
    (init : List String) :
    nodes.foldl (fun acc n => acc ++ [g n]) init = init ++ nodes.map g := by
  induction nodes generalizing init with
  | nil => simp
  | cons n rest ih => simp [ih]

/-- The loop of getForks over pages that all announce a next page, then one that does not. -/
theorem getForksLoop_pages (username : String) (init : List (Connection Repository))
    (last : Connection Repository) (rest : List (Response Repository))
    (cursor : Option String) (acc : List String)
    (hinit : ∀ p ∈ init, p.PageInfo.HasNextPage = true)
    (hlast : last.PageInfo.HasNextPage = false) :
    getForksLoop username ((init ++ [last]).map Response.page ++ rest) cursor acc
      = ⟨(cursor :: init.map (fun p => some p.PageInfo.EndCursor)).map
            (Event.query "Forks" username),
          .ok (acc ++ (init ++ [last]).flatMap (fun p => p.Nodes.map (fun n => n.NameWithOwner))),
          rest⟩ := by
  induction init generalizing cursor acc with
  | nil => simp [getForksLoop, hlast, foldl_append_singleton]
  | cons p init ih =>
    have hp : p.PageInfo.HasNextPage = true := hinit p (List.mem_cons_self _ _)
    have ih2 := ih (some p.PageInfo.EndCursor) (acc ++ p.Nodes.map (fun n => n.NameWithOwner))
      (fun q hq => hinit q (List.mem_cons_of_mem _ hq))
    rw [List.cons_append, List.map_cons, List.cons_append, getForksLoop]
    simp only [hp, Bool.not_true, Bool.false_eq_true, if_false, foldl_append_singleton, ih2]
    simp [List.flatMap_cons, List.append_assoc]

/-- The loop of getReposWithOpenPullRequests over such pages. -/
theorem getReposWithOpenPullRequestsLoop_pages (username : String)
    (init : List (Connection PullRequest)) (last : Connection PullRequest)
    (rest : List (Response PullRequest)) (cursor : Option String) (acc : List String)
    (hinit : ∀ p ∈ init, p.PageInfo.HasNextPage = true)
    (hlast : last.PageInfo.HasNextPage = false) :
    getReposWithOpenPullRequestsLoop username ((init ++ [last]).map Response.page ++ rest)
        cursor acc
      = ⟨(cursor :: init.map (fun p => some p.PageInfo.EndCursor)).map
            (Event.query "PullRequests" username),
          .ok (acc ++ (init ++ [last]).flatMap
            (fun p => p.Nodes.map (fun n => n.HeadRef.Repository.NameWithOwner))),
          rest⟩ := by
  induction init generalizing cursor acc with
  | nil => simp [getReposWithOpenPullRequestsLoop, hlast, foldl_append_singleton]
  | cons p init ih =>
    have hp : p.PageInfo.HasNextPage = true := hinit p (List.mem_cons_self _ _)
    have ih2 := ih (some p.PageInfo.EndCursor)
      (acc ++ p.Nodes.map (fun n => n.HeadRef.Repository.NameWithOwner))
      (fun q hq => hinit q (List.mem_cons_of_mem _ hq))
    rw [List.cons_append, List.map_cons, List.cons_append, getReposWithOpenPullRequestsLoop]
    simp only [hp, Bool.not_true, Bool.false_eq_true, if_false, foldl_append_singleton, ih2]
    simp [List.flatMap_cons, List.append_assoc]

theorem length_flatMap_nodes {α : Type} (g : α → String) (pages : List (Connection α)) :
    (pages.flatMap (fun p => p.Nodes.map g)).length
      = (pages.map (fun p => p.Nodes.length)).sum := by
  induction pages with
  | nil => rfl
  | cons p rest ih => simp [List.flatMap_cons, ih]

/-! ## Lemmas on the run -/

theorem getForksLoop_events (u : String) (script : List (Response Repository))
    (cursor : Option String) (acc : List String) :
    (∃ tail, (getForksLoop u script cursor acc).events = Event.query "Forks" u cursor :: tail) ∧
    ∀ e ∈ (getForksLoop u script cursor acc).events, e.afterLookup u = true := by
  induction script generalizing cursor acc with
  | nil => simp [getForksLoop, Event.afterLookup]
  | cons r rest ih =>
    cases r with
    | failed err => simp [getForksLoop, Event.afterLookup]
    | page c =>
      rw [getForksLoop]
      by_cases h : c.PageInfo.HasNextPage = true
      · simp only [h, Bool.not_true, Bool.false_eq_true, if_false]
        refine ⟨⟨_, rfl⟩, ?_⟩
        intro e he
        rcases List.mem_cons.mp he with rfl | he
        · simp [Event.afterLookup]
        · exact (ih _ _).2 e he
      · simp [h, Event.afterLookup]

theorem getReposWithOpenPullRequestsLoop_events (u : String)
    (script : List (Response PullRequest)) (cursor : Option String) (acc : List String) :
    ∀ e ∈ (getReposWithOpenPullRequestsLoop u script cursor acc).events,
      e.afterLookup u = true := by
  induction script generalizing cursor acc with
  | nil => simp [getReposWithOpenPullRequestsLoop, Event.afterLookup]
  | cons r rest ih =>
    cases r with
    | failed err => simp [getReposWithOpenPullRequestsLoop, Event.afterLookup]
    | page c =>
      rw [getReposWithOpenPullRequestsLoop]
      by_cases h : c.PageInfo.HasNextPage = true
      · simp only [h, Bool.not_true, Bool.false_eq_true, if_false]
        intro e he
        rcases List.mem_cons.mp he with rfl | he
        · simp [Event.afterLookup]
        · exact ih _ _ e he
      · simp [h, Event.afterLookup]

theorem deleteLoop_events (u : String) (force dryRun : Bool) (restClient : DeleteCap)
    (forks : List Fork) (hist : List String) :
    ∀ e ∈ (deleteLoop force dryRun restClient forks hist).events, e.afterLookup u = true := by
  induction forks generalizing hist with
  | nil => simp [deleteLoop]
  | cons fork rest ih =>
    rw [deleteLoop]
    by_cases h : (force || !fork.hasOpenPRs) = true
    · simp only [h, if_true, deleteFork]
      cases dryRun with
      | true =>
        simp only [Bool.not_true, Bool.false_eq_true, if_false, after_events]
        intro e he
        rcases List.mem_append.mp he with he | he
        · rcases List.mem_append.mp he with he | he
          · simp at he
          · rw [List.mem_singleton.mp he]
            rfl
        · exact ih _ e he
      | false =>
        cases hc : restClient hist ("repos/" ++ fork.name) with
        | none =>
          simp only [Bool.not_false, if_true, after_events]
          intro e he
          rcases List.mem_append.mp he with he | he
          · rcases List.mem_append.mp he with he | he
            · rw [List.mem_singleton.mp he]
              rfl
            · rw [List.mem_singleton.mp he]
              rfl
          · exact ih _ e he
        | some err =>
          simp only [Bool.not_false, if_true]
          intro e he
          rw [List.mem_singleton.mp he]
          rfl
    · simp only [h, if_false, after_events]
      intro e he
      rcases List.mem_append.mp he with he | he
      · rw [List.mem_singleton.mp he]
        rfl
      · exact ih _ e he

theorem runAs_events (flags : Flags) (w : World) (u : String) :
    (∃ tail, (runAs flags w u).events
      = Event.println ("Running as: " ++ u) :: Event.query "Forks" u none :: tail) ∧
    ∀ e ∈ (runAs flags w u).events, e.afterLookup u = true := by
  obtain ⟨⟨t1, ht1⟩, hall1⟩ := getForksLoop_events u w.forksPages none []
  have hall2 := getReposWithOpenPullRequestsLoop_events u w.pullRequestsPages none []
  have hp : (Event.println ("Running as: " ++ u)).afterLookup u = true := rfl
  unfold runAs
  simp only [getForks, getReposWithOpenPullRequests]
  split
  · refine ⟨⟨t1, by simp [ht1]⟩, ?_⟩
    intro e he
    rcases List.mem_append.mp he with he | he
    · rw [List.mem_singleton.mp he]
      exact hp
    · exact hall1 e he
  · refine ⟨⟨t1, by simp [ht1]⟩, ?_⟩
    intro e he
    rcases List.mem_append.mp he with he | he
    · rw [List.mem_singleton.mp he]
      exact hp
    · exact hall1 e he
  · have hstart : ∀ e ∈ [Event.println ("Running as: " ++ u)]
          ++ (getForksLoop u w.forksPages none []).events
          ++ (getReposWithOpenPullRequestsLoop u w.pullRequestsPages none []).events,
        e.afterLookup u = true := by
      intro e he
      rcases List.mem_append.mp he with he | he
      · rcases List.mem_append.mp he with he | he
        · rw [List.mem_singleton.mp he]
          exact hp
        · exact hall1 e he
      · exact hall2 e he
    split
    · exact ⟨⟨_, by rw [ht1]; rfl⟩, hstart⟩
    · exact ⟨⟨_, by rw [ht1]; rfl⟩, hstart⟩
    · refine ⟨⟨_, by rw [after_events, ht1]; rfl⟩, ?_⟩
      intro e he
      rw [after_events] at he
      rcases List.mem_append.mp he with he | he
      · exact hstart e he
      · exact deleteLoop_events u _ _ _ _ _ e he

theorem banners_events (flags : Flags) (u : String) :
    ∀ e ∈ banners flags, e.afterLookup u = true := by
  intro e he
  unfold banners at he
  rcases List.mem_append.mp he with he | he
  · split at he
    · rw [List.mem_singleton.mp he]
      rfl
    · simp at he
  · split at he
    · rw [List.mem_singleton.mp he]
      rfl
    · simp at he

theorem Run_of_clients (flags : Flags) (w : World) (hc : createClients w = none) :
    Run flags w = (runAs flags w (resolveUsername flags w).2).after
      (banners flags ++ (resolveUsername flags w).1) := by
  simp only [Run, hc]

theorem query_login_of_afterLookup (u : String) (evs : List Event)
    (h : ∀ e ∈ evs, e.afterLookup u = true) (name login : String) (cursor : Option String)
    (hm : Event.query name login cursor ∈ evs) : login = u := by
  have h2 := h _ hm
  simpa [Event.afterLookup] using h2

theorem no_restGet_of_afterLookup (u : String) (evs : List Event)
    (h : ∀ e ∈ evs, e.afterLookup u = true) (path : String) : Event.restGet path ∉ evs := by
  intro hm
  have h2 := h _ hm
  simp [Event.afterLookup] at h2

/-- After the banners and the events of the lookup, the run works for the username. -/
theorem Run_events_afterLookup (flags : Flags) (w : World) (hc : createClients w = none) :
    (∃ tail, (Run flags w).events = banners flags ++ ((resolveUsername flags w).1 ++
        Event.println ("Running as: " ++ (resolveUsername flags w).2) ::
        Event.query "Forks" (resolveUsername flags w).2 none :: tail)) ∧
    ∀ e ∈ (Run flags w).events, e ∈ (resolveUsername flags w).1 ∨
      e.afterLookup (resolveUsername flags w).2 = true := by
  obtain ⟨⟨tail, htail⟩, hall⟩ := runAs_events flags w (resolveUsername flags w).2
  rw [Run_of_clients flags w hc, after_events]
  refine ⟨⟨tail, by rw [htail, List.append_assoc]⟩, ?_⟩
  intro e he
  rcases List.mem_append.mp he with he | he
  · rcases List.mem_append.mp he with he | he
    · exact Or.inr (banners_events flags _ e he)
    · exact Or.inl he
  · exact Or.inr (hall e he)

/-! ## Lemmas on the lines of the report -/

/-- The lines of a run for real are an initial segment of the lines of the dry run. -/
theorem reports_deleteLoop_initial (force : Bool) (restClient : DeleteCap)
    (forks : List Fork) (hist : List String) :
    ∃ rest, forks.map (reportLine force)
      = reports (deleteLoop force false restClient forks hist).events ++ rest := by
  induction forks generalizing hist with
  | nil => exact ⟨[], rfl⟩
  | cons fork forks ih =>
    rw [deleteLoop]
    by_cases h : (force || !fork.hasOpenPRs) = true
    · cases hc : restClient hist ("repos/" ++ fork.name) with
      | none =>
        obtain ⟨rest, hrest⟩ := ih (hist ++ deletePaths [Event.restDelete ("repos/" ++ fork.name)])
        refine ⟨rest, ?_⟩
        simp only [h, if_true, deleteFork, Bool.not_false, hc, after_events, reports_append,
          reports_restDelete, reports_nil, reports_green, List.map_cons, List.nil_append,
          List.cons_append, reportLine, hrest]
      | some err =>
        refine ⟨(fork :: forks).map (reportLine force), ?_⟩
        simp only [h, if_true, deleteFork, Bool.not_false, hc, reports_restDelete, reports_nil,
          List.nil_append]
    · obtain ⟨rest, hrest⟩ := ih hist
      refine ⟨rest, ?_⟩
      simp only [h, if_false, Bool.false_eq_true, after_events, reports_append, reports_yellow,
        reports_nil, List.map_cons, List.nil_append, List.cons_append, reportLine, hrest]

theorem skipped_ne_dryRunBanner (f : String) :
    Event.yellow ("[SKIPPED] " ++ f ++ " (has open pull requests)") ≠ dryRunBanner := by
  intro h
  have h1 : "[SKIPPED] " ++ f ++ " (has open pull requests)"
      = "Running in dry-run mode. No repositories will be deleted." := by
    simpa [dryRunBanner] using h
  have h2 := congrArg String.data h1
  simp only [String.data_append] at h2
  have h3 := congrArg List.head? h2
  simp at h3

theorem getForksLoop_events_all (ok : Event → Prop)
    (hq : ∀ name login cursor, ok (Event.query name login cursor))
    (u : String) (script : List (Response Repository)) (cursor : Option String)
    (acc : List String) :
    ∀ e ∈ (getForksLoop u script cursor acc).events, ok e := by
  induction script generalizing cursor acc with
  | nil =>
    intro e he
    rw [getForksLoop, List.mem_singleton] at he
    exact he ▸ hq _ _ _
  | cons r rest ih =>
    cases r with
    | failed err =>
      intro e he
      rw [getForksLoop, List.mem_singleton] at he
      exact he ▸ hq _ _ _
    | page c =>
      rw [getForksLoop]
      by_cases h : c.PageInfo.HasNextPage = true
      · simp only [h, Bool.not_true, Bool.false_eq_true, if_false]
        intro e he
        rcases List.mem_cons.mp he with rfl | he
        · exact hq _ _ _
        · exact ih _ _ e he
      · simp only [h, Bool.not_eq_true, Bool.not_false, if_true]
        intro e he
        rw [List.mem_singleton] at he
        exact he ▸ hq _ _ _

theorem getReposWithOpenPullRequestsLoop_events_all (ok : Event → Prop)
    (hq : ∀ name login cursor, ok (Event.query name login cursor))
    (u : String) (script : List (Response PullRequest)) (cursor : Option String)
    (acc : List String) :
    ∀ e ∈ (getReposWithOpenPullRequestsLoop u script cursor acc).events, ok e := by
  induction script generalizing cursor acc with
  | nil =>
    intro e he
    rw [getReposWithOpenPullRequestsLoop, List.mem_singleton] at he
    exact he ▸ hq _ _ _
  | cons r rest ih =>
    cases r with
    | failed err =>
      intro e he
      rw [getReposWithOpenPullRequestsLoop, List.mem_singleton] at he
      exact he ▸ hq _ _ _
    | page c =>
      rw [getReposWithOpenPullRequestsLoop]
      by_cases h : c.PageInfo.HasNextPage = true
      · simp only [h, Bool.not_true, Bool.false_eq_true, if_false]
        intro e he
        rcases List.mem_cons.mp he with rfl | he
        · exact hq _ _ _
        · exact ih _ _ e he
      · simp only [h, Bool.not_eq_true, Bool.not_false, if_true]
        intro e he
        rw [List.mem_singleton] at he
        exact he ▸ hq _ _ _

theorem deleteLoop_events_all (ok : Event → Prop)
    (hd : ∀ path, ok (Event.restDelete path)) (hg : ∀ msg, ok (Event.green msg))
    (hy : ∀ f, ok (Event.yellow ("[SKIPPED] " ++ f ++ " (has open pull requests)")))
    (force dryRun : Bool) (restClient : DeleteCap) (forks : List Fork) (hist : List String) :
    ∀ e ∈ (deleteLoop force dryRun restClient forks hist).events, ok e := by
  induction forks generalizing hist with
  | nil => simp [deleteLoop]
  | cons fork rest ih =>
    rw [deleteLoop]
    by_cases h : (force || !fork.hasOpenPRs) = true
    · simp only [h, if_true, deleteFork]
      cases dryRun with
      | true =>
        simp only [Bool.not_true, Bool.false_eq_true, if_false, after_events]
        intro e he
        rcases List.mem_append.mp he with he | he
        · rcases List.mem_append.mp he with he | he
          · simp at he
          · rw [List.mem_singleton.mp he]
            exact hg _
        · exact ih _ e he
      | false =>
        cases hc : restClient hist ("repos/" ++ fork.name) with
        | none =>
          simp only [Bool.not_false, if_true, after_events]
          intro e he
          rcases List.mem_append.mp he with he | he
          · rcases List.mem_append.mp he with he | he
            · rw [List.mem_singleton.mp he]
              exact hd _
            · rw [List.mem_singleton.mp he]
              exact hg _
          · exact ih _ e he
        | some err =>
          simp only [Bool.not_false, if_true]
          intro e he
          rw [List.mem_singleton.mp he]
          exact hd _
    · simp only [h, if_false, after_events]
      intro e he
      rcases List.mem_append.mp he with he | he
      · rw [List.mem_singleton.mp he]
        exact hy _
      · exact ih _ e he

theorem runAs_events_all (ok : Event → Prop)
    (hp : ∀ msg, ok (Event.println msg))
    (hq : ∀ name login cursor, ok (Event.query name login cursor))
    (hd : ∀ path, ok (Event.restDelete path)) (hg : ∀ msg, ok (Event.green msg))
    (hy : ∀ f, ok (Event.yellow ("[SKIPPED] " ++ f ++ " (has open pull requests)")))
    (flags : Flags) (w : World) (u : String) :
    ∀ e ∈ (runAs flags w u).events, ok e := by
  have hall1 := getForksLoop_events_all ok hq u w.forksPages none []
  have hall2 := getReposWithOpenPullRequestsLoop_events_all ok hq u w.pullRequestsPages none []
  have hstart : ∀ e ∈ [Event.println ("Running as: " ++ u)]
        ++ (getForksLoop u w.forksPages none []).events, ok e := by
    intro e he
    rcases List.mem_append.mp he with he | he
    · rw [List.mem_singleton.mp he]
      exact hp _
    · exact hall1 e he
  have hstart2 : ∀ e ∈ [Event.println ("Running as: " ++ u)]
        ++ (getForksLoop u w.forksPages none []).events
        ++ (getReposWithOpenPullRequestsLoop u w.pullRequestsPages none []).events, ok e := by
    intro e he
    rcases List.mem_append.mp he with he | he
    · exact hstart e he
    · exact hall2 e he
  unfold runAs
  simp only [getForks, getReposWithOpenPullRequests]
  split
  · exact hstart
  · exact hstart
  · split
    · exact hstart2
    · exact hstart2
    · intro e he
      rw [after_events] at he
      rcases List.mem_append.mp he with he | he
      · exact hstart2 e he
      · exact deleteLoop_events_all ok hd hg hy _ _ _ _ _ e he

/-- In dry-run mode the run opens with the banner, which occurs nowhere else in it. -/
theorem Run_dryRunBanner_once (username token : String) (force : Bool) (w : World) :
    ∃ tail, (Run ⟨username, token, true, force⟩ w).events = dryRunBanner :: tail ∧
      dryRunBanner ∉ tail := by
  have hred : ∀ e ∈ (if force = true then
      [Event.red "Force mode enabled. Forks with open pull requests will be deleted."]
      else []), e ≠ dryRunBanner := by
    intro e he
    split at he
    · rw [List.mem_singleton.mp he]
      simp [dryRunBanner]
    · simp at he
  have hlookup : ∀ e ∈ (resolveUsername ⟨username, token, true, force⟩ w).1,
      e ≠ dryRunBanner := by
    intro e he
    unfold resolveUsername at he
    split at he
    · unfold getRunningUser at he
      dsimp only at he
      split at he
      · rcases List.mem_cons.mp he with rfl | he
        · simp [dryRunBanner]
        · rw [List.mem_singleton.mp he]
          simp [dryRunBanner]
      · rw [List.mem_singleton.mp he]
        simp [dryRunBanner]
    · simp at he
  have hrun := runAs_events_all (fun e => e ≠ dryRunBanner)
    (fun _ => by simp [dryRunBanner]) (fun _ _ _ => by simp [dryRunBanner])
    (fun _ => by simp [dryRunBanner]) (fun _ => by simp [dryRunBanner])
    skipped_ne_dryRunBanner ⟨username, token, true, force⟩ w
    (resolveUsername ⟨username, token, true, force⟩ w).2
  unfold Run
  split
  · refine ⟨_, rfl, ?_⟩
    intro hm
    exact hred _ hm rfl
  · refine ⟨_, by rw [after_events]; rfl, ?_⟩
    intro hm
    rcases List.mem_append.mp hm with hm | hm
    · rcases List.mem_append.mp hm with hm | hm
      · exact hred _ hm rfl
      · exact hlookup _ hm rfl
    · exact hrun _ hm rfl

/-! ## Theorems -/

/-- C4: the classification loop builds, in the order of the fork list, one record per
fork whose flag is exact membership of the name in the open pull request list. -/
theorem classify_order_preserving_membership (F P : List String) :
    classify F P = F.map (fun f => (⟨f, decide (f ∈ P)⟩ : Fork)) ∧
    (classify F P).length = F.length ∧
    (classify F P).map (fun r => r.name) = F ∧
    ∀ r ∈ classify F P, (r.hasOpenPRs = true ↔ r.name ∈ P) := by
  have h := classify_eq F P
  refine ⟨h, ?_, ?_, ?_⟩
  · simp [h]
  · rw [h]
    simp [List.map_map, Function.comp_def, record]
  · intro r hr
    rw [h] at hr
    obtain ⟨f, -, rfl⟩ := List.mem_map.mp hr
    simp [record]

/-- C5: for a duplicate-free fork list, the number of records flagged hasOpenPRs equals
the cardinality of the intersection of the fork set and the open pull request set. -/
theorem count_open_prs_eq_card_inter (F P : List String) (hF : F.Nodup) :
    ((classify F P).filter (fun r => r.hasOpenPRs)).length
      = (F.toFinset ∩ P.toFinset).card := by
  have h1 : ((classify F P).filter (fun r => r.hasOpenPRs)).length
      = (F.filter (fun f => decide (f ∈ P))).length := by
    rw [classify_eq, List.filter_map, List.length_map]
    rfl
  have h2 : F.toFinset ∩ P.toFinset = (F.filter (fun f => decide (f ∈ P))).toFinset := by
    ext x
    simp
  rw [h1, h2, List.toFinset_card_of_nodup (hF.filter _)]

/-- Witness of C5 on a fork list of three and a pull request list with a repeat. -/
theorem count_open_prs_eq_card_inter_witness :
    ((classify scenarioF ["alice/repoB", "bob/x", "alice/repoB"]).filter
      (fun r => r.hasOpenPRs)).length
      = (scenarioF.toFinset ∩ ["alice/repoB", "bob/x", "alice/repoB"].toFinset).card :=
  count_open_prs_eq_card_inter scenarioF ["alice/repoB", "bob/x", "alice/repoB"] (by decide)

/-- C1: without force and without dry-run, when no delete call fails, the delete calls
of the reconcile loop are the forks of F that do not occur in P, in the order of F, each
under the path repos/ followed by its name, and the loop runs to its end. -/
theorem delete_exactly_forks_without_open_prs (restClient : DeleteCap)
    (hok : ∀ hist path, restClient hist path = none) (F P : List String) :
    deletePaths (reconcile false false restClient F P).events
        = (F.filter (fun f => decide (f ∉ P))).map (fun f => "repos/" ++ f) ∧
    (∀ f, "repos/" ++ f ∈ deletePaths (reconcile false false restClient F P).events
        ↔ (f ∈ F ∧ f ∉ P)) ∧
    (reconcile false false restClient F P).outcome = .returned := by
  have hrun : reconcile false false restClient F P
      = ⟨okEvents false (F.map (record P)), .returned⟩ := by
    rw [reconcile, classify_eq, deleteLoop_ok false restClient hok]
  have hfilter : F.filter (isDelete false P) = F.filter (fun f => decide (f ∉ P)) := by
    congr 1
    funext f
    simp [isDelete]
  have hpaths : deletePaths (reconcile false false restClient F P).events
      = (F.filter (fun f => decide (f ∉ P))).map repoPath := by
    rw [hrun]
    simp only []
    rw [deletePaths_okEvents, filter_toDelete_classify, hfilter]
  refine ⟨hpaths, ?_, by rw [hrun]⟩
  intro f
  rw [hpaths]
  constructor
  · intro hmem
    obtain ⟨g, hg, hgf⟩ := List.mem_map.mp hmem
    have hfg : g = f := repoPath_injective hgf
    subst hfg
    simpa using hg
  · intro hf
    exact List.mem_map.mpr ⟨f, by simpa using hf, rfl⟩

/-- Witness of C1 on the scenario: repoA and repoC are deleted, repoB is not. -/
theorem delete_exactly_forks_without_open_prs_witness :
    (∀ hist path, DeleteCap.succeeds hist path = none) ∧
    deletePaths (reconcile false false DeleteCap.succeeds scenarioF scenarioP).events
      = ["repos/alice/repoA", "repos/alice/repoC"] :=
  ⟨fun _ _ => rfl,
   (delete_exactly_forks_without_open_prs DeleteCap.succeeds (fun _ _ => rfl)
      scenarioF scenarioP).1.trans (by decide)⟩

/-- C2: in dry-run mode the reconcile loop makes no delete call, whatever force, the
lists and the capability are; it still logs one line per fork, in order, and runs to
its end. -/
theorem dry_run_never_deletes (force : Bool) (restClient : DeleteCap) (F P : List String) :
    deletePaths (reconcile force true restClient F P).events = [] ∧
    (reconcile force true restClient F P).events
      = F.map (fun f =>
          if force || !decide (f ∈ P) then Event.green ("[DELETED] " ++ f)
          else Event.yellow ("[SKIPPED] " ++ f ++ " (has open pull requests)")) ∧
    (reconcile force true restClient F P).outcome = .returned := by
  have hrun : reconcile force true restClient F P
      = ⟨(F.map (record P)).map (reportLine force), .returned⟩ := by
    rw [reconcile, classify_eq, deleteLoop_dry]
  rw [hrun]
  refine ⟨?_, ?_, rfl⟩
  · exact deletePaths_map_reportLine force _
  · simp only [List.map_map]
    rfl

/-- C3, as stated, fails: with force set and dry-run set, a fork of the list is not among
the delete calls. -/
theorem force_deletes_all_counterexample :
    ¬ ∀ (dryRun : Bool) (restClient : DeleteCap) (F P : List String), ∀ f ∈ F,
        "repos/" ++ f ∈ deletePaths (reconcile true dryRun restClient F P).events := by
  intro h
  have h2 := h true DeleteCap.succeeds scenarioF scenarioP "alice/repoB" (by decide)
  revert h2
  decide

/-- C3, amended: with force set, dry-run unset and no failing delete call, the delete
calls are all the forks of F in order, whatever P is, forks that occur in P included;
with force set and dry-run set there is no delete call. -/
theorem force_deletes_all_when_not_dry_run (restClient : DeleteCap)
    (hok : ∀ hist path, restClient hist path = none) (F P : List String) :
    deletePaths (reconcile true false restClient F P).events
        = F.map (fun f => "repos/" ++ f) ∧
    (∀ f ∈ F, "repos/" ++ f ∈ deletePaths (reconcile true false restClient F P).events) ∧
    deletePaths (reconcile true true restClient F P).events = [] := by
  have hdry : deletePaths (reconcile true true restClient F P).events = [] := by
    rw [reconcile, classify_eq, deleteLoop_dry]
    exact deletePaths_map_reportLine true _
  have hrun : reconcile true false restClient F P
      = ⟨okEvents true (F.map (record P)), .returned⟩ := by
    rw [reconcile, classify_eq, deleteLoop_ok true restClient hok]
  have hfilter : F.filter (isDelete true P) = F := by
    simp [isDelete]
  have hpaths : deletePaths (reconcile true false restClient F P).events
      = F.map repoPath := by
    rw [hrun]
    simp only []
    rw [deletePaths_okEvents, filter_toDelete_classify, hfilter]
  refine ⟨hpaths, ?_, hdry⟩
  intro f hf
  rw [hpaths]
  exact List.mem_map.mpr ⟨f, hf, rfl⟩

/-- Witness of amended C3 on the scenario: repoB has an open pull request and is deleted. -/
theorem force_deletes_all_when_not_dry_run_witness :
    (∀ hist path, DeleteCap.succeeds hist path = none) ∧
    deletePaths (reconcile true false DeleteCap.succeeds scenarioF scenarioP).events
      = ["repos/alice/repoA", "repos/alice/repoB", "repos/alice/repoC"] :=
  ⟨fun _ _ => rfl,
   (force_deletes_all_when_not_dry_run DeleteCap.succeeds (fun _ _ => rfl)
      scenarioF scenarioP).1.trans (by decide)⟩

/-- C6, as stated, fails: in the scenario with force and dry-run set, the three lines
logged are the DELETED lines, the same lines that the run logs without dry-run. -/
theorem dry_run_report_counterexample :
    (reconcile true true DeleteCap.succeeds scenarioF scenarioP).events
      = [Event.green "[DELETED] alice/repoA", Event.green "[DELETED] alice/repoB",
         Event.green "[DELETED] alice/repoC"] ∧
    reports (reconcile true false DeleteCap.succeeds scenarioF scenarioP).events
      = (reconcile true true DeleteCap.succeeds scenarioF scenarioP).events := by
  decide

/-- C6, amended: the line logged for a fork does not depend on dry-run.  A dry run logs
one line per fork, in order: DELETED for a fork classified DELETE and SKIPPED for any
other.  The lines of a run without dry-run are an initial segment of those same lines,
whatever the delete calls answer, and all of them when no delete call fails.  Dry-run
mode is announced by the banner alone: it is the first event of a dry run and occurs
nowhere else in it.  In the scenario with force and dry-run set the three forks are
logged as DELETED and no delete call is made. -/
theorem report_same_in_dry_run (force : Bool) (dryClient realClient : DeleteCap)
    (F P : List String) (username token : String) (w : World) :
    (reconcile force true dryClient F P).events
      = F.map (fun f =>
          if isDelete force P f then Event.green ("[DELETED] " ++ f)
          else Event.yellow ("[SKIPPED] " ++ f ++ " (has open pull requests)")) ∧
    (∃ rest, (reconcile force true dryClient F P).events
      = reports (reconcile force false realClient F P).events ++ rest) ∧
    ((∀ hist path, realClient hist path = none) →
      reports (reconcile force false realClient F P).events
        = (reconcile force true dryClient F P).events) ∧
    (∃ tail, (Run ⟨username, token, true, force⟩ w).events
        = Event.yellow "Running in dry-run mode. No repositories will be deleted." :: tail ∧
      Event.yellow "Running in dry-run mode. No repositories will be deleted." ∉ tail) ∧
    (reconcile true true dryClient scenarioF scenarioP).events
      = [Event.green "[DELETED] alice/repoA", Event.green "[DELETED] alice/repoB",
         Event.green "[DELETED] alice/repoC"] ∧
    deletePaths (reconcile true true dryClient scenarioF scenarioP).events = [] := by
  have hdry : reconcile force true dryClient F P
      = ⟨(F.map (record P)).map (reportLine force), .returned⟩ := by
    rw [reconcile, classify_eq, deleteLoop_dry]
  have hscenario : reconcile true true dryClient scenarioF scenarioP
      = ⟨(scenarioF.map (record scenarioP)).map (reportLine true), .returned⟩ := by
    rw [reconcile, classify_eq, deleteLoop_dry]
  refine ⟨?_, ?_, ?_, Run_dryRunBanner_once username token force w, ?_, ?_⟩
  · rw [hdry]
    simp only [List.map_map]
    rfl
  · rw [hdry]
    obtain ⟨rest, hrest⟩ := reports_deleteLoop_initial force realClient (F.map (record P)) []
    exact ⟨rest, by rw [reconcile, classify_eq]; exact hrest⟩
  · intro hok
    have hreal : reconcile force false realClient F P
        = ⟨okEvents force (F.map (record P)), .returned⟩ := by
      rw [reconcile, classify_eq, deleteLoop_ok force realClient hok]
    rw [hdry, hreal]
    exact reports_okEvents force _
  · rw [hscenario]
    decide
  · rw [hscenario]
    decide

/-- Witness of amended C6 on the scenario with force set: the run for real, with no
failing call, logs the three DELETED lines of the dry run. -/
theorem report_same_in_dry_run_witness :
    (∀ hist path, DeleteCap.succeeds hist path = none) ∧
    reports (reconcile true false DeleteCap.succeeds scenarioF scenarioP).events
      = [Event.green "[DELETED] alice/repoA", Event.green "[DELETED] alice/repoB",
         Event.green "[DELETED] alice/repoC"] :=
  have h := report_same_in_dry_run true DeleteCap.succeeds DeleteCap.succeeds
    scenarioF scenarioP "alice" "t0k3n" lookupFailsWorld
  ⟨fun _ _ => rfl, (h.2.2.1 (fun _ _ => rfl)).trans h.2.2.2.2.1⟩

/-- C7: deletion is sequential and fail-fast.  Without dry-run, let D be the forks of F
classified DELETE, in order.  If the calls on D[0], ..., D[k-1] succeed and the call on
x = D[k] fails with err, then the run ends in the fatal outcome with err, its delete calls
are exactly D[0], ..., D[k], each once, and its events are those of a run without failure
over the forks before x, followed by the failing call alone: the forks before x are
reported, x and the forks after x are not. -/
theorem delete_fail_fast (force : Bool) (restClient : DeleteCap) (F P : List String)
    (k : Nat) (x err : String)
    (hx : (F.filter (isDelete force P))[k]? = some x)
    (hpre : ∀ i f, i < k → (F.filter (isDelete force P))[i]? = some f →
      restClient (((F.filter (isDelete force P)).take i).map (fun g => "repos/" ++ g))
        ("repos/" ++ f) = none)
    (hfail : restClient (((F.filter (isDelete force P)).take k).map (fun g => "repos/" ++ g))
        ("repos/" ++ x) = some err) :
    (reconcile force false restClient F P).outcome = .fatal err ∧
    deletePaths (reconcile force false restClient F P).events
      = ((F.filter (isDelete force P)).take (k + 1)).map (fun g => "repos/" ++ g) ∧
    ∃ pre post, F = pre ++ x :: post ∧
      pre.filter (isDelete force P) = (F.filter (isDelete force P)).take k ∧
      (reconcile force false restClient F P).events
        = (reconcile force false DeleteCap.succeeds pre P).events
            ++ [Event.restDelete ("repos/" ++ x)] ∧
      reports (reconcile force false restClient F P).events
        = pre.map (fun f =>
            if isDelete force P f then Event.green ("[DELETED] " ++ f)
            else Event.yellow ("[SKIPPED] " ++ f ++ " (has open pull requests)")) := by
  obtain ⟨pre, post, hF, hpx, hfilter⟩ := filter_split_at (isDelete force P) F k x hx
  have hrun : reconcile force false restClient F P
      = ⟨okEvents force (pre.map (record P)) ++ [Event.restDelete (repoPath x)],
          .fatal err⟩ := by
    rw [hF]
    apply reconcile_fail_at force restClient pre post P x err hpx
    · intro a p b hab
      rw [hfilter] at hab
      obtain ⟨i, f, hi, hf, hgf, hta⟩ := split_take_map repoPath _ k a p b hab
      rw [← hgf, ← hta]
      exact hpre i f hi hf
    · rw [hfilter]
      exact hfail
  have hsucc : reconcile force false DeleteCap.succeeds pre P
      = ⟨okEvents force (pre.map (record P)), .returned⟩ := by
    rw [reconcile, classify_eq, deleteLoop_ok force DeleteCap.succeeds (fun _ _ => rfl)]
  refine ⟨by rw [hrun], ?_, pre, post, hF, hfilter, by rw [hrun, hsucc]; rfl, ?_⟩
  · rw [hrun]
    simp only [deletePaths_append, deletePaths_restDelete, deletePaths_nil]
    rw [deletePaths_okEvents, filter_toDelete_classify, hfilter, List.take_succ, hx]
    have e : repoPath = fun g => "repos/" ++ g := rfl
    simp [e]
  · rw [hrun]
    simp only [reports_append, reports_restDelete, reports_nil, List.append_nil]
    rw [reports_okEvents, List.map_map]
    rfl

/-- Witness of C7 on the scenario, with a capability that refuses repoC: repoA is deleted
and reported, the call on repoC is made once and fails, the run is fatal. -/
theorem delete_fail_fast_witness :
    (reconcile false false (DeleteCap.failsOn "repos/alice/repoC" "HTTP 403")
      scenarioF scenarioP).outcome = .fatal "HTTP 403" ∧
    deletePaths (reconcile false false (DeleteCap.failsOn "repos/alice/repoC" "HTTP 403")
      scenarioF scenarioP).events = ["repos/alice/repoA", "repos/alice/repoC"] :=
  have h := delete_fail_fast false (DeleteCap.failsOn "repos/alice/repoC" "HTTP 403")
    scenarioF scenarioP 1 "alice/repoC" "HTTP 403" (by decide)
    (by
      intro i f hi hf
      have hi0 : i = 0 := by omega
      subst hi0
      have hf2 : f = "alice/repoA" := by
        have h0 : (scenarioF.filter (isDelete false scenarioP))[0]? = some "alice/repoA" := by
          decide
        rw [h0] at hf
        exact (Option.some.inj hf).symm
      subst hf2
      decide)
    (by decide)
  ⟨h.1, h.2.1.trans (by decide)⟩

/-- C8: pagination assembles every page in order.  When the first N-1 responses are pages
that announce a next page and the N-th is a page that does not, getForks returns the
concatenation of the NameWithOwner of the nodes in page order, and
getReposWithOpenPullRequests that of the head repositories; the length is the sum of the
page sizes; exactly N queries are issued, the first with a nil cursor and each next one
with the EndCursor of the page before, and the responses after the N-th are not consumed. -/
theorem pagination_assembles_pages (username : String)
    (init : List (Connection Repository)) (last : Connection Repository)
    (rest : List (Response Repository))
    (initPR : List (Connection PullRequest)) (lastPR : Connection PullRequest)
    (restPR : List (Response PullRequest))
    (hinit : ∀ p ∈ init, p.PageInfo.HasNextPage = true)
    (hlast : last.PageInfo.HasNextPage = false)
    (hinitPR : ∀ p ∈ initPR, p.PageInfo.HasNextPage = true)
    (hlastPR : lastPR.PageInfo.HasNextPage = false) :
    (getForks username ((init ++ [last]).map Response.page ++ rest)
      = ⟨(none :: init.map (fun p => some p.PageInfo.EndCursor)).map
            (Event.query "Forks" username),
          .ok ((init ++ [last]).flatMap (fun p => p.Nodes.map (fun n => n.NameWithOwner))),
          rest⟩ ∧
      (getForks username ((init ++ [last]).map Response.page ++ rest)).events.length
        = (init ++ [last]).length ∧
      ((init ++ [last]).flatMap (fun p => p.Nodes.map (fun n => n.NameWithOwner))).length
        = ((init ++ [last]).map (fun p => p.Nodes.length)).sum) ∧
    (getReposWithOpenPullRequests username ((initPR ++ [lastPR]).map Response.page ++ restPR)
      = ⟨(none :: initPR.map (fun p => some p.PageInfo.EndCursor)).map
            (Event.query "PullRequests" username),
          .ok ((initPR ++ [lastPR]).flatMap
            (fun p => p.Nodes.map (fun n => n.HeadRef.Repository.NameWithOwner))),
          restPR⟩ ∧
      (getReposWithOpenPullRequests username
          ((initPR ++ [lastPR]).map Response.page ++ restPR)).events.length
        = (initPR ++ [lastPR]).length ∧
      ((initPR ++ [lastPR]).flatMap
          (fun p => p.Nodes.map (fun n => n.HeadRef.Repository.NameWithOwner))).length
        = ((initPR ++ [lastPR]).map (fun p => p.Nodes.length)).sum) := by
  have hF := getForksLoop_pages username init last rest none [] hinit hlast
  have hP := getReposWithOpenPullRequestsLoop_pages username initPR lastPR restPR none []
    hinitPR hlastPR
  rw [List.nil_append] at hF hP
  refine ⟨⟨hF, ?_, length_flatMap_nodes _ _⟩, ⟨hP, ?_, length_flatMap_nodes _ _⟩⟩
  · rw [getForks, hF]
    simp
  · rw [getReposWithOpenPullRequests, hP]
    simp

/-- Witness of C8: two pages of forks followed by a response that is never asked for,
and one page of pull requests. -/
theorem pagination_assembles_pages_witness :
    (getForks "alice"
      [.page ⟨[⟨"alice/repoA"⟩, ⟨"alice/repoB"⟩], ⟨true, "c1"⟩⟩,
       .page ⟨[⟨"alice/repoC"⟩], ⟨false, "c2"⟩⟩, .failed "never asked"]).result
      = .ok ["alice/repoA", "alice/repoB", "alice/repoC"] ∧
    (getReposWithOpenPullRequests "alice"
      [.page ⟨[⟨"fix", ⟨"alice/repoB"⟩⟩], ⟨false, "d1"⟩⟩]).result = .ok ["alice/repoB"] :=
  have h := pagination_assembles_pages "alice"
    [⟨[⟨"alice/repoA"⟩, ⟨"alice/repoB"⟩], ⟨true, "c1"⟩⟩] ⟨[⟨"alice/repoC"⟩], ⟨false, "c2"⟩⟩
    [.failed "never asked"] [] ⟨[⟨⟨"fix", ⟨"alice/repoB"⟩⟩⟩], ⟨false, "d1"⟩⟩ []
    (by decide) rfl (by decide) rfl
  ⟨(congrArg Listing.result h.1.1).trans (by decide),
   (congrArg Listing.result h.2.1).trans (by decide)⟩

/-- C9, as stated, fails: with an empty flag and a lookup that returns an error after it
has written the login alice into the response, the error is printed and both listing
queries are issued for alice, not for the empty string. -/
theorem failed_lookup_login_counterexample :
    createClients lookupPartialWorld = none ∧
    lookupPartialWorld.getUser.error = some "json: cannot unmarshal" ∧
    Run ⟨"", "t0k3n", false, false⟩ lookupPartialWorld
      = ⟨[Event.restGet "user", Event.println "json: cannot unmarshal",
          Event.println "Running as: alice", Event.query "Forks" "alice" none,
          Event.query "PullRequests" "alice" none], .returned⟩ ∧
    Event.query "Forks" "" none ∉ (Run ⟨"", "t0k3n", false, false⟩ lookupPartialWorld).events := by
  decide

/-- C9, amended: username resolution, once the clients are created.  With a non-empty
username flag the identity lookup is not invoked and every listing query uses the flag.
With an empty flag the lookup is invoked and every listing query uses the Login that the
lookup left in the response, whether it returned an error or not; when it returned an
error, the error is printed and the run goes on (it prints the Running as line and issues
the Forks query); the username is then the empty string when the failed lookup left the
Login empty. -/
theorem username_resolution (flags : Flags) (w : World) (hc : createClients w = none) :
    (flags.username ≠ "" →
      (∃ tail, (Run flags w).events = banners flags ++
        Event.println ("Running as: " ++ flags.username) ::
        Event.query "Forks" flags.username none :: tail) ∧
      (∀ path, Event.restGet path ∉ (Run flags w).events) ∧
      (∀ name login cursor, Event.query name login cursor ∈ (Run flags w).events →
        login = flags.username)) ∧
    (flags.username = "" → w.getUser.error = none →
      (∃ tail, (Run flags w).events = banners flags ++
        Event.restGet "user" ::
        Event.println ("Running as: " ++ (w.getUser.store ⟨""⟩).Login) ::
        Event.query "Forks" (w.getUser.store ⟨""⟩).Login none :: tail) ∧
      (∀ name login cursor, Event.query name login cursor ∈ (Run flags w).events →
        login = (w.getUser.store ⟨""⟩).Login)) ∧
    (flags.username = "" → ∀ err, w.getUser.error = some err →
      (∃ tail, (Run flags w).events = banners flags ++
        Event.restGet "user" :: Event.println err ::
        Event.println ("Running as: " ++ (w.getUser.store ⟨""⟩).Login) ::
        Event.query "Forks" (w.getUser.store ⟨""⟩).Login none :: tail) ∧
      (∀ name login cursor, Event.query name login cursor ∈ (Run flags w).events →
        login = (w.getUser.store ⟨""⟩).Login)) ∧
    (flags.username = "" → ∀ err, w.getUser.error = some err →
      (w.getUser.store ⟨""⟩).Login = "" →
      (∃ tail, (Run flags w).events = banners flags ++
        Event.restGet "user" :: Event.println err :: Event.println "Running as: " ::
        Event.query "Forks" "" none :: tail) ∧
      (∀ name login cursor, Event.query name login cursor ∈ (Run flags w).events →
        login = "")) := by
  obtain ⟨⟨tail, htail⟩, hall⟩ := Run_events_afterLookup flags w hc
  have hfail : flags.username = "" → ∀ err, w.getUser.error = some err →
      (∃ tail, (Run flags w).events = banners flags ++
        Event.restGet "user" :: Event.println err ::
        Event.println ("Running as: " ++ (w.getUser.store ⟨""⟩).Login) ::
        Event.query "Forks" (w.getUser.store ⟨""⟩).Login none :: tail) ∧
      (∀ name login cursor, Event.query name login cursor ∈ (Run flags w).events →
        login = (w.getUser.store ⟨""⟩).Login) := by
    intro he err hu
    have hr : resolveUsername flags w
        = ([Event.restGet "user", Event.println err], (w.getUser.store ⟨""⟩).Login) := by
      simp [resolveUsername, he, getRunningUser, hu]
    rw [hr] at htail hall
    refine ⟨⟨tail, htail⟩, ?_⟩
    intro name login cursor hm
    rcases hall _ hm with h | h
    · simp at h
    · simpa [Event.afterLookup] using h
  refine ⟨?_, ?_, hfail, ?_⟩
  · intro hne
    have hr : resolveUsername flags w = ([], flags.username) := by
      simp [resolveUsername, hne]
    rw [hr] at htail hall
    have hall2 : ∀ e ∈ (Run flags w).events, e.afterLookup flags.username = true := by
      intro e he
      rcases hall e he with h | h
      · simp at h
      · exact h
    exact ⟨⟨tail, htail⟩, no_restGet_of_afterLookup _ _ hall2,
      query_login_of_afterLookup _ _ hall2⟩
  · intro he hu
    have hr : resolveUsername flags w
        = ([Event.restGet "user"], (w.getUser.store ⟨""⟩).Login) := by
      simp [resolveUsername, he, getRunningUser, hu]
    rw [hr] at htail hall
    refine ⟨⟨tail, htail⟩, ?_⟩
    intro name login cursor hm
    rcases hall _ hm with h | h
    · simp at h
    · simpa [Event.afterLookup] using h
  · intro he err hu hempty
    have h3 := hfail he err hu
    rw [hempty] at h3
    exact h3

/-- Witness of amended C9: the flag is empty and the lookup fails with HTTP 401 without
writing the response; the error is printed and both queries are issued for the empty
login. -/
theorem username_resolution_witness :
    createClients lookupFailsWorld = none ∧
    (∃ tail, (Run ⟨"", "t0k3n", false, false⟩ lookupFailsWorld).events
      = banners ⟨"", "t0k3n", false, false⟩ ++
        Event.restGet "user" :: Event.println "HTTP 401" :: Event.println "Running as: " ::
        Event.query "Forks" "" none :: tail) ∧
    Run ⟨"", "t0k3n", false, false⟩ lookupFailsWorld
      = ⟨[Event.restGet "user", Event.println "HTTP 401", Event.println "Running as: ",
          Event.query "Forks" "" none, Event.query "PullRequests" "" none], .returned⟩ :=
  ⟨rfl, ((username_resolution ⟨"", "t0k3n", false, false⟩ lookupFailsWorld rfl).2.2.2
    rfl "HTTP 401" rfl rfl).1, by decide⟩

/-- C10: whatever force, dry-run and the answers of the capability are, the delete calls
of the reconcile loop are a sublist of the fork list, each under the path repos/ followed
by the fork name; a repository that is not in the fork list is never deleted. -/
theorem deletes_only_listed_forks (force dryRun : Bool) (restClient : DeleteCap)
    (F P : List String) :
    List.Sublist (deletePaths (reconcile force dryRun restClient F P).events)
      (F.map (fun f => "repos/" ++ f)) ∧
    (∀ x, "repos/" ++ x ∈ deletePaths (reconcile force dryRun restClient F P).events → x ∈ F) ∧
    (∀ x ∈ P, x ∉ F →
      "repos/" ++ x ∉ deletePaths (reconcile force dryRun restClient F P).events) := by
  have hsub : List.Sublist (deletePaths (reconcile force dryRun restClient F P).events)
      (F.map repoPath) := by
    have h := deletePaths_deleteLoop_sublist force dryRun restClient (classify F P) []
    rw [classify_eq, List.map_map] at h
    rw [reconcile, classify_eq]
    exact h
  have hmem : ∀ x, "repos/" ++ x ∈ deletePaths (reconcile force dryRun restClient F P).events
      → x ∈ F := by
    intro x hx
    obtain ⟨g, hg, hgx⟩ := List.mem_map.mp (hsub.subset hx)
    have hgx2 : g = x := repoPath_injective hgx
    exact hgx2 ▸ hg
  exact ⟨hsub, hmem, fun x _ hxF hx => hxF (hmem x hx)⟩

/-- Witness of C10: a capability that fails on repoC, and a pull request list naming a
repository that is not a fork. -/
theorem deletes_only_listed_forks_witness :
    "bob/other" ∈ ["alice/repoB", "bob/other"] ∧ "bob/other" ∉ scenarioF ∧
    "repos/bob/other" ∉ deletePaths (reconcile true false
      (DeleteCap.failsOn "repos/alice/repoC" "HTTP 403") scenarioF
      ["alice/repoB", "bob/other"]).events :=
  ⟨by decide, by decide,
   (deletes_only_listed_forks true false (DeleteCap.failsOn "repos/alice/repoC" "HTTP 403")
      scenarioF ["alice/repoB", "bob/other"]).2.2 "bob/other" (by decide) (by decide)⟩

end CleanForks
